import Mathlib

/-!
Shallow embedding of the stealth behavior engine of the
go-linkedin-automation-tool repository (src/internal/stealth/stealth.go),
together with proofs of the specification's claims about it.

Modelling conventions:
* Go `time.Duration` / `time.Time` arithmetic is `ℤ` (nanoseconds).
* A blocking function is modelled by the duration it sleeps.
* The process-wide randomness source (`math/rand`) is an explicit
  oracle parameter: `rand.Float64` becomes a stream `ℕ → ℝ` of values in
  `[0,1)`, `rand.Int63n n` becomes a draw function `ℤ → ℤ` whose value
  on a positive argument `n` lies in `[0,n)` (on `n ≤ 0` the Go function
  panics; the embedding makes the panic explicit where it can happen).
* `float64` arithmetic is real arithmetic.
-/

/-- 2-D coordinate, from `type Point struct { X, Y float64 }`. -/
structure Point where
  x : ℝ
  y : ℝ

/-- Configuration bundle, from `type StealthConfig struct`.  Durations are
nanoseconds (`ℤ`), hours are `ℤ`. -/
structure StealthConfig where
  MinDelay : ℤ
  MaxDelay : ℤ
  TypingMinDelay : ℤ
  TypingMaxDelay : ℤ
  ScrollMinDelay : ℤ
  ScrollMaxDelay : ℤ
  BusinessHours : Bool
  BusinessStart : ℤ
  BusinessEnd : ℤ
  CooldownPeriod : ℤ
  MaxActionsPerWindow : ℤ
  RateLimitWindow : ℤ

/-- From `IsWithinBusinessHours`.  The Go method reads `t.Hour()`; the
embedding takes that hour-of-day value directly as `hour`. -/
def IsWithinBusinessHours (cfg : StealthConfig) (hour : ℤ) : Bool :=
  if !cfg.BusinessHours then
    true
  else if cfg.BusinessStart ≤ cfg.BusinessEnd then
    decide (hour ≥ cfg.BusinessStart ∧ hour < cfg.BusinessEnd)
  else
    decide (hour ≥ cfg.BusinessStart ∨ hour < cfg.BusinessEnd)

/-- From `ShouldRateLimit(actionCount int, timeWindow time.Duration,
maxActions int) bool`.  The `timeWindow` parameter is kept in the signature
exactly as in the source (where it is unused). -/
def ShouldRateLimit (actionCount : ℤ) (timeWindow : ℤ) (maxActions : ℤ) : Bool :=
  if maxActions ≤ 0 then
    false
  else
    decide (actionCount ≥ maxActions)

/-- From `EnforceCooldown(lastAction time.Time, cooldownPeriod
time.Duration)`.  `time.Since(lastAction)` is `now - lastAction`; the
result is the duration the call sleeps (`0` = returns immediately). -/
def EnforceCooldown (now lastAction cooldownPeriod : ℤ) : ℤ :=
  let elapsed := now - lastAction
  if elapsed < cooldownPeriod then cooldownPeriod - elapsed else 0

/-- From `RandomDelay(min, max time.Duration)`.  `draw n` models
`rand.Int63n n`; the result is the duration slept.  The `min == max`
branch returns before the randomness source is consulted, exactly as in
the source. -/
def RandomDelay (mn mx : ℤ) (draw : ℤ → ℤ) : ℤ :=
  let lo := if mn > mx then mx else mn
  let hi := if mn > mx then mn else mx
  if lo = hi then
    lo
  else
    lo + draw (hi - lo)

/-- Durations attainable by `RandomDelay mn mx` over all valid draw
functions (a valid draw sends every positive `n` into `[0, n)`, the
contract of `rand.Int63n`). -/
def randomDelaySupport (mn mx : ℤ) : Set ℤ :=
  {d | ∃ draw : ℤ → ℤ, (∀ n, 0 < n → 0 ≤ draw n ∧ draw n < n) ∧
        RandomDelay mn mx draw = d}

/-- A key-input event issued to the target element by `HumanType`:
`element.Input c` or a Backspace key press. -/
inductive KeyEvent where
  | input : Char → KeyEvent
  | backspace : KeyEvent
deriving DecidableEq

/-- Modelled from the spec: the browser-driver element the engine types
into is external to the repository (go-rod); per spec §4.4/§6 it holds
text content, `SelectAllText` clears it, `Input c` appends `c`, and
Backspace removes the last character. -/
structure ElemState where
  content : List Char
deriving DecidableEq

/-- Effect of a single key-input event on the element. -/
def applyKey (st : ElemState) (e : KeyEvent) : ElemState :=
  match e with
  | .input c => ⟨st.content ++ [c]⟩
  | .backspace => ⟨st.content.dropLast⟩

/-- Net result of a sequence of key-input events on empty content. -/
def netKeys (evs : List KeyEvent) : List Char :=
  (evs.foldl applyKey ⟨[]⟩).content

/-- Effective lower typing bound of `HumanType`: `if minDelay == 0 {
minDelay = 50 * time.Millisecond }`. -/
def typeMinDelay (cfg : StealthConfig) : ℤ :=
  if cfg.TypingMinDelay = 0 then 50000000 else cfg.TypingMinDelay

/-- Effective upper typing bound of `HumanType`: `if maxDelay == 0 {
maxDelay = 200 * time.Millisecond }`. -/
def typeMaxDelay (cfg : StealthConfig) : ℤ :=
  if cfg.TypingMaxDelay = 0 then 200000000 else cfg.TypingMaxDelay

/-- The character-typing loop of `HumanType`.  `n` is `len(text)`, `i` the
current index, `mistake i` models `rand.Float64() < 0.05` at index `i`,
`wrong i` the random wrong character.  Between keystrokes (while
`i < len(text)-1`) the code calls
`rand.Int63n(int64(maxDelay-minDelay))`, which panics when its argument
is not positive; the panic is modelled as `none`. -/
def typeChars (cfg : StealthConfig) (mistake : ℕ → Bool) (wrong : ℕ → Char)
    (n : ℕ) : ℕ → List Char → ElemState → Option ElemState
  | _, [], st => some st
  | i, c :: cs, st =>
    let st1 := if mistake i ∧ 0 < i then
        applyKey (applyKey st (KeyEvent.input (wrong i))) KeyEvent.backspace
      else st
    let st2 := applyKey st1 (KeyEvent.input c)
    if i < n - 1 then
      if typeMaxDelay cfg - typeMinDelay cfg ≤ 0 then none
      else typeChars cfg mistake wrong n (i + 1) cs st2
    else typeChars cfg mistake wrong n (i + 1) cs st2

/-- From `HumanType(ctx, element, text)`.  The initial `SelectAllText`
clears the element (driver semantics per spec §4.4); the success path
then types `text` character by character; `none` models the
`rand.Int63n` panic on a non-positive delay range. -/
def HumanType (cfg : StealthConfig) (mistake : ℕ → Bool) (wrong : ℕ → Char)
    (st : ElemState) (text : List Char) : Option ElemState :=
  typeChars cfg mistake wrong text.length 0 text ⟨[]⟩

/-- The trace of key-input events issued by the typing loop from index
`i` on (same branching as `typeChars`, recorded rather than applied). -/
def typeTrace (mistake : ℕ → Bool) (wrong : ℕ → Char) :
    ℕ → List Char → List KeyEvent
  | _, [] => []
  | i, c :: cs =>
    (if mistake i ∧ 0 < i then
        [KeyEvent.input (wrong i), KeyEvent.backspace]
      else []) ++ (KeyEvent.input c :: typeTrace mistake wrong (i + 1) cs)

/-- Euclidean distance between two points, the expression
`math.Sqrt(math.Pow(end.X-start.X, 2) + math.Pow(end.Y-start.Y, 2))`
used by `generateBezierPath` and by the repository's property tests. -/
noncomputable def euclidDist (a b : Point) : ℝ :=
  Real.sqrt ((b.x - a.x) ^ 2 + (b.y - a.y) ^ 2)

/-- One coordinate of `cubicBezier`: `uuu*p0 + 3*uu*t*p1 + 3*u*tt*p2 +
ttt*p3` with `u = 1-t`. -/
noncomputable def cubicScalar (p0 p1 p2 p3 t : ℝ) : ℝ :=
  let u := 1 - t
  let tt := t * t
  let uu := u * u
  let uuu := uu * u
  let ttt := tt * t
  uuu * p0 + 3 * uu * t * p1 + 3 * u * tt * p2 + ttt * p3

/-- From `cubicBezier(p0, p1, p2, p3 Point, t float64) Point`. -/
noncomputable def cubicBezier (p0 p1 p2 p3 : Point) (t : ℝ) : Point :=
  ⟨cubicScalar p0.x p1.x p2.x p3.x t, cubicScalar p0.y p1.y p2.y p3.y t⟩

/-- The step count of `generateBezierPath`: `steps := int(distance / 5)`
(truncation = floor, the distance being non-negative) clamped into
`[10, 100]` by the two `if` statements. -/
noncomputable def bezierSteps (start e : Point) : ℤ :=
  let steps := ⌊euclidDist start e / 5⌋
  if steps < 10 then 10
  else if steps > 100 then 100
  else steps

/-- First Bézier control point: 25% along the straight line, perturbed
by `(rand.Float64()-0.5)*50` per axis (draw indices 0 and 1 of the
oracle, the order the source consumes them). -/
noncomputable def controlPoint1 (r : ℕ → ℝ) (start e : Point) : Point :=
  ⟨start.x + (e.x - start.x) * 0.25 + (r 0 - 0.5) * 50,
   start.y + (e.y - start.y) * 0.25 + (r 1 - 0.5) * 50⟩

/-- Second Bézier control point: 75% along the straight line, perturbed
by `(rand.Float64()-0.5)*50` per axis (draw indices 2 and 3). -/
noncomputable def controlPoint2 (r : ℕ → ℝ) (start e : Point) : Point :=
  ⟨start.x + (e.x - start.x) * 0.75 + (r 2 - 0.5) * 50,
   start.y + (e.y - start.y) * 0.75 + (r 3 - 0.5) * 50⟩

/-- The `i`-th sampled point of `generateBezierPath`: the cubic Bézier
value at `t = i/(steps-1)` plus per-axis jitter `(rand.Float64()-0.5)*2`
(draw indices `4+2i` and `5+2i`). -/
noncomputable def pathPoint (r : ℕ → ℝ) (start e : Point) (i : ℕ) : Point :=
  let t : ℝ := (i : ℝ) / ((bezierSteps start e : ℝ) - 1)
  let p := cubicBezier start (controlPoint1 r start e) (controlPoint2 r start e) e t
  ⟨p.x + (r (4 + 2 * i) - 0.5) * 2, p.y + (r (5 + 2 * i) - 0.5) * 2⟩

/-- From `generateBezierPath(start, end Point) []Point`, with the
process-wide randomness source made explicit as the oracle `r`. -/
noncomputable def generateBezierPath (r : ℕ → ℝ) (start e : Point) : List Point :=
  (List.range (bezierSteps start e).toNat).map (pathPoint r start e)

/-- Cumulative length of a path: the sum of the distances between
consecutive points (the quantity the repository's property test calls
`pathLength`). -/
noncomputable def pathLength : List Point → ℝ
  | a :: b :: rest => euclidDist a b + pathLength (b :: rest)
  | _ => 0

/-- No two consecutive points of `l` are more than `bound` units apart
(the repository property test's step-distance check). -/
def noBigSteps (l : List Point) (bound : ℝ) : Prop :=
  ∀ i : ℕ, i + 1 < l.length →
    euclidDist (l.getD i ⟨0, 0⟩) (l.getD (i + 1) ⟨0, 0⟩) ≤ bound

section BasicClaims

/-- Claim C3: for every hour of day, if business-hours gating is disabled
`IsWithinBusinessHours` returns true; otherwise with `start ≤ end` it is
true iff the hour lies in the half-open range `[start, end)`, and with
`start > end` (window spanning midnight) it is true iff `hour ≥ start`
or `hour < end`. -/
theorem IsWithinBusinessHours_spec (cfg : StealthConfig) (hour : ℤ) :
    (cfg.BusinessHours = false → IsWithinBusinessHours cfg hour = true)
    ∧ (cfg.BusinessHours = true → cfg.BusinessStart ≤ cfg.BusinessEnd →
        (IsWithinBusinessHours cfg hour = true ↔
          cfg.BusinessStart ≤ hour ∧ hour < cfg.BusinessEnd))
    ∧ (cfg.BusinessHours = true → cfg.BusinessEnd < cfg.BusinessStart →
        (IsWithinBusinessHours cfg hour = true ↔
          cfg.BusinessStart ≤ hour ∨ hour < cfg.BusinessEnd)) := by
  refine ⟨fun h => ?_, fun h hle => ?_, fun h hgt => ?_⟩ <;>
    simp only [IsWithinBusinessHours, h] <;> split_ifs with h1 <;>
    simp_all <;> omega

/-- Witness for C3 at the spec's concrete examples: gating disabled at
hour 5; window `start=22, end=6` contains hour 23 and hour 3 but not
hour 10; window `start=9, end=17` contains hour 9. -/
theorem IsWithinBusinessHours_spec_witness :
    IsWithinBusinessHours ⟨0, 0, 0, 0, 0, 0, false, 9, 17, 0, 0, 0⟩ 5 = true
    ∧ IsWithinBusinessHours ⟨0, 0, 0, 0, 0, 0, true, 22, 6, 0, 0, 0⟩ 23 = true
    ∧ IsWithinBusinessHours ⟨0, 0, 0, 0, 0, 0, true, 22, 6, 0, 0, 0⟩ 3 = true
    ∧ ¬ IsWithinBusinessHours ⟨0, 0, 0, 0, 0, 0, true, 22, 6, 0, 0, 0⟩ 10 = true
    ∧ IsWithinBusinessHours ⟨0, 0, 0, 0, 0, 0, true, 9, 17, 0, 0, 0⟩ 9 = true := by
  refine ⟨(IsWithinBusinessHours_spec _ 5).1 rfl,
    ((IsWithinBusinessHours_spec _ 23).2.2 rfl (by decide)).mpr (by decide),
    ((IsWithinBusinessHours_spec _ 3).2.2 rfl (by decide)).mpr (by decide),
    fun h => ?_,
    ((IsWithinBusinessHours_spec _ 9).2.1 rfl (by decide)).mpr (by decide)⟩
  exact absurd (((IsWithinBusinessHours_spec _ 10).2.2 rfl (by decide)).mp h)
    (by decide)

/-- Claim C4: `ShouldRateLimit` returns false whenever `maxActions ≤ 0`,
and otherwise returns true iff `actionCount ≥ maxActions`; in particular
a count of `maxActions - 1` is not limited while `maxActions` and
`maxActions + 1` are. -/
theorem ShouldRateLimit_spec (c w m : ℤ) :
    (m ≤ 0 → ShouldRateLimit c w m = false)
    ∧ (0 < m → (ShouldRateLimit c w m = true ↔ c ≥ m))
    ∧ (0 < m → ShouldRateLimit (m - 1) w m = false
        ∧ ShouldRateLimit m w m = true
        ∧ ShouldRateLimit (m + 1) w m = true) := by
  refine ⟨fun h => ?_, fun h => ?_, fun h => ⟨?_, ?_, ?_⟩⟩
  · simp only [ShouldRateLimit]
    rw [if_pos h]
  · simp only [ShouldRateLimit]
    rw [if_neg (by omega : ¬ m ≤ 0)]
    simp [ge_iff_le]
  · simp only [ShouldRateLimit]
    rw [if_neg (by omega : ¬ m ≤ 0)]
    simp only [decide_eq_false_iff_not]
    omega
  · simp only [ShouldRateLimit]
    rw [if_neg (by omega : ¬ m ≤ 0)]
    simp only [decide_eq_true_eq]
    omega
  · simp only [ShouldRateLimit]
    rw [if_neg (by omega : ¬ m ≤ 0)]
    simp only [decide_eq_true_eq]
    omega

/-- Witness for C4 at `maxActions = 4`: counts 3, 4, 5 give false, true,
true; and `maxActions = 0` gives false at count 1000. -/
theorem ShouldRateLimit_spec_witness :
    ShouldRateLimit 1000 3600 0 = false
    ∧ ShouldRateLimit 3 3600 4 = false
    ∧ ShouldRateLimit 4 3600 4 = true
    ∧ ShouldRateLimit 5 3600 4 = true := by
  refine ⟨(ShouldRateLimit_spec 1000 3600 0).1 (by decide), ?_, ?_, ?_⟩
  · exact ((ShouldRateLimit_spec 0 3600 4).2.2 (by decide)).1
  · exact ((ShouldRateLimit_spec 0 3600 4).2.2 (by decide)).2.1
  · exact ((ShouldRateLimit_spec 0 3600 4).2.2 (by decide)).2.2

/-- Claim C5, counterexample: with `lastAction` in the future
(`now = 0`, `lastAction = 5`) and `cooldownPeriod = 0`, the code sleeps
5 ns — a zero cooldown period does block, contradicting the claim's
"including one in the future" clause. -/
theorem EnforceCooldown_future_blocks : 0 < EnforceCooldown 0 5 0 := by decide

/-- Claim C5 (amended): `EnforceCooldown` sleeps `cooldownPeriod -
elapsed` when `elapsed = now - lastAction < cooldownPeriod` and returns
immediately otherwise; and for every `lastActionTime` not later than
`now`, a zero or negative cooldown period never blocks. -/
theorem EnforceCooldown_spec (now last cd : ℤ) :
    (now - last < cd → EnforceCooldown now last cd = cd - (now - last))
    ∧ (cd ≤ now - last → EnforceCooldown now last cd = 0)
    ∧ (last ≤ now → cd ≤ 0 → EnforceCooldown now last cd = 0) := by
  refine ⟨fun h => ?_, fun h => ?_, fun h1 h2 => ?_⟩ <;>
    simp only [EnforceCooldown] <;> split_ifs <;> omega

/-- Witness for C5 (amended) at concrete inputs: a recent action
(`now = 10`, `last = 8`, period 7) sleeps the remaining 5; an old action
(`now = 10`, `last = 0`, period 7) and a zero period do not block. -/
theorem EnforceCooldown_spec_witness :
    EnforceCooldown 10 8 7 = 5
    ∧ EnforceCooldown 10 0 7 = 0
    ∧ EnforceCooldown 10 3 0 = 0 := by
  refine ⟨?_, ?_, (EnforceCooldown_spec 10 3 0).2.2 (by decide) (by decide)⟩
  · have := (EnforceCooldown_spec 10 8 7).1 (by decide)
    omega
  · exact (EnforceCooldown_spec 10 0 7).2.1 (by decide)

/-- Value of `RandomDelay` on an increasing pair of bounds. -/
theorem RandomDelay_of_lt (mn mx : ℤ) (draw : ℤ → ℤ) (h : mn < mx) :
    RandomDelay mn mx draw = mn + draw (mx - mn) := by
  simp only [RandomDelay, if_neg (by omega : ¬ mn > mx)]
  rw [if_neg (by omega : ¬ mn = mx)]

/-- Value of `RandomDelay` on a decreasing pair of bounds (the swap branch). -/
theorem RandomDelay_of_gt (mn mx : ℤ) (draw : ℤ → ℤ) (h : mx < mn) :
    RandomDelay mn mx draw = mx + draw (mn - mx) := by
  simp only [RandomDelay, if_pos (by omega : mn > mx)]
  rw [if_neg (by omega : ¬ mx = mn)]

/-- On equal bounds `RandomDelay` sleeps exactly that bound. -/
theorem RandomDelay_of_eq (mn : ℤ) (draw : ℤ → ℤ) :
    RandomDelay mn mn draw = mn := by
  simp only [RandomDelay, if_neg (lt_irrefl mn)]
  simp

/-- Claim C6, counterexample: with `min = 0`, `max = 5`, no valid draw
of the randomness source makes `RandomDelay` sleep 5 — the upper bound
is never attained, so the sampled interval is not the inclusive
`[min, max]` the claim states. -/
theorem RandomDelay_max_not_attained : (5 : ℤ) ∉ randomDelaySupport 0 5 := by
  rintro ⟨draw, hv, he⟩
  have h5 := hv 5 (by norm_num)
  rw [RandomDelay_of_lt 0 5 draw (by norm_num)] at he
  norm_num at he
  omega

/-- Claim C6 (amended): `RandomDelay` swaps `min > max` before sampling
(it is symmetric in its bounds); with `min = max` it sleeps exactly that
duration without consulting the randomness source (the result does not
depend on the draw); and with `min < max` the slept duration is drawn
uniformly from the half-open interval `[min, max)`: every valid draw
yields a sleep in `[min, max)` and every value of `[min, max)` is
attained by some valid draw. -/
theorem RandomDelay_spec (mn mx : ℤ) (draw : ℤ → ℤ)
    (hd : ∀ n, 0 < n → 0 ≤ draw n ∧ draw n < n) :
    (RandomDelay mn mx draw = RandomDelay mx mn draw)
    ∧ (mn = mx → RandomDelay mn mx draw = mn
        ∧ ∀ d2 : ℤ → ℤ, RandomDelay mn mx draw = RandomDelay mn mx d2)
    ∧ (mn < mx → mn ≤ RandomDelay mn mx draw ∧ RandomDelay mn mx draw < mx)
    ∧ (mn < mx → ∀ v, mn ≤ v → v < mx → v ∈ randomDelaySupport mn mx) := by
  refine ⟨?_, fun h => ?_, fun h => ?_, fun h v hv1 hv2 => ?_⟩
  · rcases lt_trichotomy mn mx with h | h | h
    · rw [RandomDelay_of_lt mn mx draw h, RandomDelay_of_gt mx mn draw h]
    · subst h
      rfl
    · rw [RandomDelay_of_gt mn mx draw h, RandomDelay_of_lt mx mn draw h]
  · subst h
    refine ⟨RandomDelay_of_eq mn draw, fun d2 => ?_⟩
    rw [RandomDelay_of_eq mn draw, RandomDelay_of_eq mn d2]
  · have hdr := hd (mx - mn) (by omega)
    rw [RandomDelay_of_lt mn mx draw h]
    omega
  · refine ⟨fun n => if n = mx - mn then v - mn else 0, fun n hn => ?_, ?_⟩
    · show (0 ≤ if n = mx - mn then v - mn else 0)
        ∧ (if n = mx - mn then v - mn else 0) < n
      split_ifs <;> omega
    · rw [RandomDelay_of_lt mn mx _ h]
      show mn + (if mx - mn = mx - mn then v - mn else 0) = v
      rw [if_pos rfl]
      omega

/-- Witness for C6 (amended) at `min = 3`, `max = 7` with the valid draw
`n ↦ n - 1`: the sleep is symmetric in the bounds, lies in `[3, 7)`, and
the value 5 is attainable. -/
theorem RandomDelay_spec_witness :
    (RandomDelay 3 7 (fun n => n - 1) = RandomDelay 7 3 (fun n => n - 1))
    ∧ 3 ≤ RandomDelay 3 7 (fun n => n - 1)
    ∧ RandomDelay 3 7 (fun n => n - 1) < 7
    ∧ (5 : ℤ) ∈ randomDelaySupport 3 7 := by
  have hs := RandomDelay_spec 3 7 (fun n => n - 1)
    (fun n hn => by show 0 ≤ n - 1 ∧ n - 1 < n; omega)
  exact ⟨hs.1, (hs.2.2.1 (by norm_num)).1, (hs.2.2.1 (by norm_num)).2,
    hs.2.2.2 (by norm_num) 5 (by norm_num) (by norm_num)⟩

/-- Claim C10: `ShouldRateLimit` ignores its `timeWindow` argument
entirely — the result is a function of the action count and the maximum
alone. -/
theorem ShouldRateLimit_ignores_window (c m w1 w2 : ℤ) :
    ShouldRateLimit c w1 m = ShouldRateLimit c w2 m := rfl

end BasicClaims

section TypingClaims

/-- Replaying the event trace of the typing loop onto any prior content
appends exactly the remaining characters: every simulated wrong
character is immediately cancelled by its backspace. -/
theorem typeTrace_foldl (mistake : ℕ → Bool) (wrong : ℕ → Char) :
    ∀ (cs : List Char) (i : ℕ) (pre : List Char),
      (typeTrace mistake wrong i cs).foldl applyKey ⟨pre⟩ = ⟨pre ++ cs⟩ := by
  intro cs
  induction cs with
  | nil => intro i pre; simp [typeTrace]
  | cons c cs ih =>
    intro i pre
    simp only [typeTrace]
    split_ifs with hm
    · simp only [List.foldl_append, List.foldl_cons, applyKey,
        List.dropLast_concat, List.foldl_nil]
      rw [ih]
      simp
    · simp only [List.nil_append, List.foldl_cons, applyKey]
      rw [ih]
      simp

/-- The success path of the typing loop appends exactly the remaining
characters to the element's content. -/
theorem typeChars_content (cfg : StealthConfig) (mistake : ℕ → Bool)
    (wrong : ℕ → Char) (n : ℕ) :
    ∀ (cs : List Char) (i : ℕ) (st stF : ElemState),
      typeChars cfg mistake wrong n i cs st = some stF →
      stF.content = st.content ++ cs := by
  intro cs
  induction cs with
  | nil =>
    intro i st stF h
    simp only [typeChars, Option.some.injEq] at h
    subst h
    simp
  | cons c cs ih =>
    intro i st stF h
    simp only [typeChars] at h
    split at h
    · split at h
      · exact absurd h (by simp)
      · have hr := ih (i + 1) _ stF h
        simp only [applyKey, apply_ite ElemState.content, List.dropLast_concat,
          ite_self] at hr
        rw [hr]
        simp
    · have hr := ih (i + 1) _ stF h
      simp only [applyKey, apply_ite ElemState.content, List.dropLast_concat,
        ite_self] at hr
      rw [hr]
      simp

/-- When the effective typing bounds are strictly increasing the
inter-keystroke sampling never panics, so the loop always succeeds. -/
theorem typeChars_total (cfg : StealthConfig) (mistake : ℕ → Bool)
    (wrong : ℕ → Char) (n : ℕ)
    (hgood : typeMinDelay cfg < typeMaxDelay cfg) :
    ∀ (cs : List Char) (i : ℕ) (st : ElemState),
      ∃ stF, typeChars cfg mistake wrong n i cs st = some stF := by
  intro cs
  induction cs with
  | nil => intro i st; exact ⟨st, rfl⟩
  | cons c cs ih =>
    intro i st
    have hbad : ¬ typeMaxDelay cfg - typeMinDelay cfg ≤ 0 := by omega
    simp only [typeChars, if_neg hbad, ite_self]
    exact ih (i + 1) _

/-- Claim C2: if `HumanType` returns success, the net sequence of
key-input events issued after the initial select-all equals exactly the
characters of `text` in order (every simulated wrong character is undone
by a backspace before the real character), and the element's final
content equals `text` exactly. -/
theorem HumanType_types_text (cfg : StealthConfig) (mistake : ℕ → Bool)
    (wrong : ℕ → Char) (st : ElemState) (text : List Char) (stF : ElemState)
    (h : HumanType cfg mistake wrong st text = some stF) :
    stF.content = text ∧ netKeys (typeTrace mistake wrong 0 text) = text := by
  constructor
  · have := typeChars_content cfg mistake wrong text.length text 0 ⟨[]⟩ stF h
    simpa using this
  · unfold netKeys
    rw [typeTrace_foldl mistake wrong text 0 []]
    simp

/-- Witness for C2: typing `"hi"` into an element holding `"z"`, with a
simulated mistake at every eligible index, succeeds and leaves exactly
`"hi"`. -/
theorem HumanType_types_text_witness :
    HumanType ⟨0, 0, 1, 2, 0, 0, false, 0, 0, 0, 0, 0⟩ (fun _ => true)
        (fun _ => 'x') ⟨['z']⟩ ['h', 'i'] = some ⟨['h', 'i']⟩
    ∧ (⟨['h', 'i']⟩ : ElemState).content = ['h', 'i']
    ∧ netKeys (typeTrace (fun _ => true) (fun _ => 'x') 0 ['h', 'i'])
        = ['h', 'i'] := by
  have h : HumanType ⟨0, 0, 1, 2, 0, 0, false, 0, 0, 0, 0, 0⟩ (fun _ => true)
      (fun _ => 'x') ⟨['z']⟩ ['h', 'i'] = some ⟨['h', 'i']⟩ := by decide
  have hs := HumanType_types_text ⟨0, 0, 1, 2, 0, 0, false, 0, 0, 0, 0, 0⟩
    (fun _ => true) (fun _ => 'x') ⟨['z']⟩ ['h', 'i'] ⟨['h', 'i']⟩ h
  exact ⟨h, hs.1, hs.2⟩

/-- Claim C9: the inter-keystroke delay sampling of `HumanType` is total
only when the effective typing bounds (zero values replaced by the
50ms/200ms defaults) satisfy `max > min`: for any text of length at
least two, effective bounds with `min ≥ max` make the call panic
(`rand.Int63n` receives a non-positive argument, modelled as `none`)
regardless of the mistake draws — there is no swap or equality guard as
in `RandomDelay` — while strictly increasing bounds always succeed. -/
theorem HumanType_bad_bounds_none (cfg : StealthConfig) (mistake : ℕ → Bool)
    (wrong : ℕ → Char) (st : ElemState) (text : List Char) :
    (2 ≤ text.length → typeMaxDelay cfg ≤ typeMinDelay cfg →
      HumanType cfg mistake wrong st text = none)
    ∧ (typeMinDelay cfg < typeMaxDelay cfg →
      ∃ stF, HumanType cfg mistake wrong st text = some stF) := by
  constructor
  · intro hlen hbad
    match text, hlen with
    | c :: c2 :: rest, _ =>
      simp only [HumanType, typeChars, List.length_cons]
      rw [if_pos (show (0 : ℕ) < rest.length + 1 + 1 - 1 by omega)]
      rw [if_pos (show typeMaxDelay cfg - typeMinDelay cfg ≤ 0 by omega)]
  · intro hgood
    exact typeChars_total cfg mistake wrong text.length hgood text 0 ⟨[]⟩

/-- Witness for C9: configured bounds 300ms/100ms (min > max, no zero
defaulting) make `HumanType` fail on `"ab"`, while the all-zero
configuration (defaults 50ms/200ms) succeeds on the same text. -/
theorem HumanType_bad_bounds_none_witness :
    HumanType ⟨0, 0, 300000000, 100000000, 0, 0, false, 0, 0, 0, 0, 0⟩
        (fun _ => false) (fun _ => 'a') ⟨[]⟩ ['a', 'b'] = none
    ∧ ∃ stF, HumanType ⟨0, 0, 0, 0, 0, 0, false, 0, 0, 0, 0, 0⟩
        (fun _ => false) (fun _ => 'a') ⟨[]⟩ ['a', 'b'] = some stF :=
  ⟨(HumanType_bad_bounds_none _ _ _ _ _).1 (by decide) (by decide),
    (HumanType_bad_bounds_none _ _ _ _ _).2 (by decide)⟩

end TypingClaims

section PathCountClaim

/-- Claim C1: for every pair of points, `generateBezierPath` returns a
finite, non-empty path whose number of points equals
`clamp(floor(d/5), 10, 100)` for `d` the Euclidean distance between the
endpoints; in particular every path has at least 10 and at most 100
points. -/
theorem generateBezierPath_count (r : ℕ → ℝ) (s e : Point) :
    ((generateBezierPath r s e).length : ℤ)
        = max 10 (min 100 ⌊euclidDist s e / 5⌋)
    ∧ 10 ≤ (generateBezierPath r s e).length
    ∧ (generateBezierPath r s e).length ≤ 100 := by
  have hlen : (generateBezierPath r s e).length = (bezierSteps s e).toNat := by
    simp [generateBezierPath]
  have hb : 10 ≤ bezierSteps s e ∧ bezierSteps s e ≤ 100 ∧
      bezierSteps s e = max 10 (min 100 ⌊euclidDist s e / 5⌋) := by
    simp only [bezierSteps]
    split_ifs with h1 h2 <;> omega
  obtain ⟨h1, h2, h3⟩ := hb
  rw [hlen]
  refine ⟨?_, by omega, by omega⟩
  rw [Int.toNat_of_nonneg (by omega)]
  exact h3

end PathCountClaim

section GeometryHelpers

/-- Exact algebraic form of a cubic Bézier increment: the difference over
`[t, t+h]` is `h` times the Bernstein-form derivative at the midpoint
`t + h/2`, plus a cubic correction term. -/
theorem cubicScalar_increment (P0 P1 P2 P3 t h : ℝ) :
    cubicScalar P0 P1 P2 P3 (t + h) - cubicScalar P0 P1 P2 P3 t
      = h * (3 * ((1 - (t + h / 2)) ^ 2 * (P1 - P0)
          + 2 * (1 - (t + h / 2)) * (t + h / 2) * (P2 - P1)
          + (t + h / 2) ^ 2 * (P3 - P2)))
        + (P3 - 3 * P2 + 3 * P1 - P0) * h ^ 3 / 4 := by
  simp only [cubicScalar]
  ring

/-- The Bernstein-form derivative of a cubic Bézier is bounded by three
times the largest leg of the control polygon. -/
theorem bernstein_weight_bound (d1 d2 d3 M u : ℝ) (hu0 : 0 ≤ u) (hu1 : u ≤ 1)
    (h1 : |d1| ≤ M) (h2 : |d2| ≤ M) (h3 : |d3| ≤ M) :
    |3 * ((1 - u) ^ 2 * d1 + 2 * (1 - u) * u * d2 + u ^ 2 * d3)| ≤ 3 * M := by
  have w1 : (0 : ℝ) ≤ (1 - u) ^ 2 := sq_nonneg _
  have w2 : (0 : ℝ) ≤ 2 * (1 - u) * u := by nlinarith
  have w3 : (0 : ℝ) ≤ u ^ 2 := sq_nonneg _
  obtain ⟨l1, r1⟩ := abs_le.mp h1
  obtain ⟨l2, r2⟩ := abs_le.mp h2
  obtain ⟨l3, r3⟩ := abs_le.mp h3
  have hsum : ((1 - u) ^ 2 + 2 * (1 - u) * u + u ^ 2) * M = M := by
    rw [show (1 - u) ^ 2 + 2 * (1 - u) * u + u ^ 2 = 1 by ring, one_mul]
  rw [abs_le]
  constructor
  · nlinarith [mul_le_mul_of_nonneg_left l1 w1, mul_le_mul_of_nonneg_left l2 w2,
      mul_le_mul_of_nonneg_left l3 w3]
  · nlinarith [mul_le_mul_of_nonneg_left r1 w1, mul_le_mul_of_nonneg_left r2 w2,
      mul_le_mul_of_nonneg_left r3 w3]

/-- Bound on a cubic Bézier increment over a subinterval of `[0,1]`:
`3hM` from the derivative plus `A h³/4` from the midpoint correction. -/
theorem cubic_diff_bound (P0 P1 P2 P3 M A t h : ℝ)
    (h1 : |P1 - P0| ≤ M) (h2 : |P2 - P1| ≤ M) (h3 : |P3 - P2| ≤ M)
    (hA : |P3 - 3 * P2 + 3 * P1 - P0| ≤ A)
    (ht : 0 ≤ t) (hh : 0 ≤ h) (hth : t + h ≤ 1) :
    |cubicScalar P0 P1 P2 P3 (t + h) - cubicScalar P0 P1 P2 P3 t|
      ≤ 3 * h * M + A * h ^ 3 / 4 := by
  have hu0 : 0 ≤ t + h / 2 := by linarith
  have hu1 : t + h / 2 ≤ 1 := by linarith
  have hM0 : 0 ≤ M := le_trans (abs_nonneg _) h1
  have hA0 : 0 ≤ A := le_trans (abs_nonneg _) hA
  have hb := bernstein_weight_bound (P1 - P0) (P2 - P1) (P3 - P2) M
    (t + h / 2) hu0 hu1 h1 h2 h3
  rw [cubicScalar_increment]
  calc |h * (3 * ((1 - (t + h / 2)) ^ 2 * (P1 - P0)
          + 2 * (1 - (t + h / 2)) * (t + h / 2) * (P2 - P1)
          + (t + h / 2) ^ 2 * (P3 - P2)))
        + (P3 - 3 * P2 + 3 * P1 - P0) * h ^ 3 / 4|
      ≤ |h * (3 * ((1 - (t + h / 2)) ^ 2 * (P1 - P0)
          + 2 * (1 - (t + h / 2)) * (t + h / 2) * (P2 - P1)
          + (t + h / 2) ^ 2 * (P3 - P2)))|
        + |(P3 - 3 * P2 + 3 * P1 - P0) * h ^ 3 / 4| := abs_add _ _
    _ ≤ 3 * h * M + A * h ^ 3 / 4 := by
        have e1 : |h * (3 * ((1 - (t + h / 2)) ^ 2 * (P1 - P0)
            + 2 * (1 - (t + h / 2)) * (t + h / 2) * (P2 - P1)
            + (t + h / 2) ^ 2 * (P3 - P2)))| ≤ h * (3 * M) := by
          rw [abs_mul, abs_of_nonneg hh]
          exact mul_le_mul_of_nonneg_left hb hh
        have e2 : |(P3 - 3 * P2 + 3 * P1 - P0) * h ^ 3 / 4|
            ≤ A * h ^ 3 / 4 := by
          rw [abs_div, abs_mul, abs_of_nonneg (pow_nonneg hh 3)]
          have h4 : |(4 : ℝ)| = 4 := by norm_num
          rw [h4]
          gcongr
        linarith

/-- A scaled centred uniform draw is bounded: for `x ∈ [0,1)` and
`c ≥ 0`, `|(x - 0.5) * c| ≤ c/2`. -/
theorem rnoise_bound (x c : ℝ) (h0 : 0 ≤ x) (h1 : x < 1) (hc : 0 ≤ c) :
    |(x - 0.5) * c| ≤ c / 2 := by
  rw [abs_mul, abs_of_nonneg hc]
  have hx : |x - 0.5| ≤ 0.5 := by
    rw [abs_le]
    constructor <;> [linarith; linarith]
  calc |x - 0.5| * c ≤ 0.5 * c := mul_le_mul_of_nonneg_right hx hc
    _ = c / 2 := by ring

/-- Each coordinate difference is at most the Euclidean distance. -/
theorem abs_dx_le_euclidDist (a b : Point) : |b.x - a.x| ≤ euclidDist a b := by
  rw [euclidDist, ← Real.sqrt_sq_eq_abs]
  apply Real.sqrt_le_sqrt
  nlinarith [sq_nonneg (b.y - a.y)]

/-- Each coordinate difference is at most the Euclidean distance. -/
theorem abs_dy_le_euclidDist (a b : Point) : |b.y - a.y| ≤ euclidDist a b := by
  rw [euclidDist, ← Real.sqrt_sq_eq_abs]
  apply Real.sqrt_le_sqrt
  nlinarith [sq_nonneg (b.x - a.x)]

/-- To bound a Euclidean distance it suffices to bound the sum of the
squared coordinate differences. -/
theorem euclidDist_le (a b : Point) (c : ℝ) (hc : 0 ≤ c)
    (h : (b.x - a.x) ^ 2 + (b.y - a.y) ^ 2 ≤ c ^ 2) : euclidDist a b ≤ c := by
  rw [euclidDist]
  calc Real.sqrt ((b.x - a.x) ^ 2 + (b.y - a.y) ^ 2)
      ≤ Real.sqrt (c ^ 2) := Real.sqrt_le_sqrt h
    _ = c := Real.sqrt_sq hc

/-- Distance is at most `√2` when both coordinate differences are at
most 1 in absolute value. -/
theorem euclidDist_le_sqrt_two (a b : Point)
    (hx : |b.x - a.x| ≤ 1) (hy : |b.y - a.y| ≤ 1) :
    euclidDist a b ≤ Real.sqrt 2 := by
  rw [euclidDist]
  apply Real.sqrt_le_sqrt
  obtain ⟨hx1, hx2⟩ := abs_le.mp hx
  obtain ⟨hy1, hy2⟩ := abs_le.mp hy
  nlinarith

/-- Triangle inequality for `euclidDist`, via the complex absolute
value. -/
theorem euclidDist_triangle (a b c : Point) :
    euclidDist a c ≤ euclidDist a b + euclidDist b c := by
  have habs : ∀ p q : Point,
      euclidDist p q = Complex.abs ⟨q.x - p.x, q.y - p.y⟩ := by
    intro p q
    rw [euclidDist, Complex.abs_apply, Complex.normSq_mk]
    congr 1
    ring
  rw [habs, habs, habs]
  have hsplit : (⟨c.x - a.x, c.y - a.y⟩ : ℂ)
      = (⟨b.x - a.x, b.y - a.y⟩ : ℂ) + (⟨c.x - b.x, c.y - b.y⟩ : ℂ) := by
    apply Complex.ext <;> simp <;> ring
  rw [hsplit]
  exact Complex.abs.add_le _ _

/-- Structural facts about the clamped step count: it lies in
`[10, 100]`, and unless it is exactly 100 the distance is below
`5·steps + 5`. -/
theorem bezierSteps_bounds (s e : Point) :
    10 ≤ bezierSteps s e ∧ bezierSteps s e ≤ 100
    ∧ (bezierSteps s e = 100
        ∨ euclidDist s e < 5 * (bezierSteps s e : ℝ) + 5) := by
  have hd0 : 0 ≤ euclidDist s e := Real.sqrt_nonneg _
  have hfl := Int.lt_floor_add_one (euclidDist s e / 5)
  have hfl0 : (0 : ℤ) ≤ ⌊euclidDist s e / 5⌋ :=
    Int.floor_nonneg.mpr (by positivity)
  simp only [bezierSteps]
  split_ifs with h1 h2
  · refine ⟨by omega, by omega, Or.inr ?_⟩
    have h9 : (⌊euclidDist s e / 5⌋ : ℝ) + 1 ≤ 10 := by exact_mod_cast by omega
    push_cast
    linarith
  · exact ⟨by omega, by omega, Or.inl rfl⟩
  · refine ⟨by omega, by omega, Or.inr ?_⟩
    push_cast
    linarith

/-- Indexing into the generated path yields the sampled points. -/
theorem generateBezierPath_getD (r : ℕ → ℝ) (s e : Point) (i : ℕ)
    (hi : i < (bezierSteps s e).toNat) :
    (generateBezierPath r s e).getD i ⟨0, 0⟩ = pathPoint r s e i := by
  rw [generateBezierPath, List.getD, List.get?_map, List.get?_range hi]
  rfl

/-- A cubic Bézier starts at its first control point. -/
theorem cubicScalar_zero (P0 P1 P2 P3 : ℝ) :
    cubicScalar P0 P1 P2 P3 0 = P0 := by
  simp only [cubicScalar]
  ring

/-- A cubic Bézier ends at its last control point. -/
theorem cubicScalar_one (P0 P1 P2 P3 : ℝ) :
    cubicScalar P0 P1 P2 P3 1 = P3 := by
  simp only [cubicScalar]
  ring

end GeometryHelpers

section StepBoundHelpers

/-- A Bézier step plus jitter is bounded by the derivative bound plus 2. -/
theorem jittered_diff_bound (P0 P1 P2 P3 M A t h j1 j2 b : ℝ)
    (h1 : |P1 - P0| ≤ M) (h2 : |P2 - P1| ≤ M) (h3 : |P3 - P2| ≤ M)
    (hA : |P3 - 3 * P2 + 3 * P1 - P0| ≤ A)
    (ht : 0 ≤ t) (hh : 0 ≤ h) (hth : t + h ≤ 1)
    (hj1 : |j1| ≤ 1) (hj2 : |j2| ≤ 1)
    (hb : 3 * h * M + A * h ^ 3 / 4 + 2 ≤ b) :
    |(cubicScalar P0 P1 P2 P3 (t + h) + j2)
      - (cubicScalar P0 P1 P2 P3 t + j1)| ≤ b := by
  have hd := cubic_diff_bound P0 P1 P2 P3 M A t h h1 h2 h3 hA ht hh hth
  have heq : (cubicScalar P0 P1 P2 P3 (t + h) + j2)
      - (cubicScalar P0 P1 P2 P3 t + j1)
      = (cubicScalar P0 P1 P2 P3 (t + h) - cubicScalar P0 P1 P2 P3 t)
        + (j2 - j1) := by ring
  rw [heq]
  calc |(cubicScalar P0 P1 P2 P3 (t + h) - cubicScalar P0 P1 P2 P3 t)
        + (j2 - j1)|
      ≤ |cubicScalar P0 P1 P2 P3 (t + h) - cubicScalar P0 P1 P2 P3 t|
        + |j2 - j1| := abs_add _ _
    _ ≤ (3 * h * M + A * h ^ 3 / 4) + (|j2| + |j1|) :=
        add_le_add hd (abs_sub j2 j1)
    _ ≤ b := by linarith

/-- The numeric case analysis behind the 50-unit step bound: with
`σ = steps - 1`, control-polygon bound `D/2 + 50` and cubic-correction
bound `D/2 + 150`, the per-axis step stays at most 35 both in the
clamped case (`σ = 99`, `D ≤ 1000`) and in the unclamped case
(`D ≤ d < 5(σ+1)+5`). -/
theorem step_arith_bound (σ D d : ℝ) (hσ9 : 9 ≤ σ) (hD0 : 0 ≤ D)
    (hDd : D ≤ d) (hD1000 : D ≤ 1000)
    (hcase : σ = 99 ∨ d < 5 * (σ + 1) + 5) :
    3 * (1 / σ) * (D / 2 + 50) + (D / 2 + 150) * (1 / σ) ^ 3 / 4 + 2 ≤ 35 := by
  have hσpos : (0 : ℝ) < σ := by linarith
  have hinv0 : 0 < 1 / σ := by positivity
  rcases hcase with h99 | hlt
  · rw [h99]
    nlinarith [hD1000, hD0]
  · have hD5 : D < 5 * σ + 10 := by linarith
    have hmul : σ * (1 / σ) = 1 := mul_one_div_cancel (ne_of_gt hσpos)
    have h1σ : 1 / σ ≤ 1 / 9 := one_div_le_one_div_of_le (by norm_num) hσ9
    have h1 : (1 / σ) * (D / 2 + 50) ≤ 5 / 2 + 55 * (1 / σ) := by
      nlinarith [mul_nonneg hinv0.le (show (0 : ℝ) ≤ 5 * σ + 10 - D by linarith),
        hmul]
    have h2 : (1 / σ) * (D / 2 + 150) ≤ 5 / 2 + 155 * (1 / σ) := by
      nlinarith [mul_nonneg hinv0.le (show (0 : ℝ) ≤ 5 * σ + 10 - D by linarith),
        hmul]
    have hsq : (1 / σ) ^ 2 ≤ (1 / 9 : ℝ) ^ 2 := pow_le_pow_left hinv0.le h1σ 2
    have e3 : 3 * (1 / σ) * (D / 2 + 50) ≤ 3 * (5 / 2 + 55 * (1 / σ)) := by
      nlinarith [h1]
    have e4 : (3 : ℝ) * (5 / 2 + 55 * (1 / σ)) ≤ 26 := by nlinarith [h1σ]
    have e5 : (D / 2 + 150) * (1 / σ) ^ 3
        ≤ (5 / 2 + 155 * (1 / σ)) * (1 / σ) ^ 2 := by
      calc (D / 2 + 150) * (1 / σ) ^ 3
          = ((1 / σ) * (D / 2 + 150)) * (1 / σ) ^ 2 := by ring
        _ ≤ (5 / 2 + 155 * (1 / σ)) * (1 / σ) ^ 2 :=
            mul_le_mul_of_nonneg_right h2 (sq_nonneg _)
    have e6 : (5 / 2 + 155 * (1 / σ)) * (1 / σ) ^ 2
        ≤ (5 / 2 + 155 / 9) * (1 / 81) := by
      apply mul_le_mul (by linarith) (le_trans hsq (by norm_num)) (sq_nonneg _)
        (by norm_num)
    have e7 : ((5 : ℝ) / 2 + 155 / 9) * (1 / 81) / 4 ≤ 1 := by norm_num
    linarith

/-- Per-axis bound for one consecutive step of the generated path: given
valid noise and jitter draws, step-count parameter `σ ≥ 9`, and the
distance relation coming from the clamp, the coordinate change between
parameters `t` and `t + 1/σ` is at most 35 units. -/
theorem axis_step_bound (S E n1 n2 j1 j2 ti σ d : ℝ)
    (hn1 : |n1| ≤ 25) (hn2 : |n2| ≤ 25) (hj1 : |j1| ≤ 1) (hj2 : |j2| ≤ 1)
    (hDd : |E - S| ≤ d) (hD1000 : |E - S| ≤ 1000)
    (hσ9 : 9 ≤ σ) (hcase : σ = 99 ∨ d < 5 * (σ + 1) + 5)
    (hti : 0 ≤ ti) (hth : ti + 1 / σ ≤ 1) :
    |(cubicScalar S (S + (E - S) * 0.25 + n1) (S + (E - S) * 0.75 + n2) E
        (ti + 1 / σ) + j2)
      - (cubicScalar S (S + (E - S) * 0.25 + n1) (S + (E - S) * 0.75 + n2) E
        ti + j1)| ≤ 35 := by
  have hσpos : (0 : ℝ) < σ := by linarith
  have hh : (0 : ℝ) ≤ 1 / σ := by positivity
  have hD0 : (0 : ℝ) ≤ |E - S| := abs_nonneg _
  obtain ⟨hE1, hE2⟩ := abs_le.mp (le_refl |E - S|)
  obtain ⟨hn1l, hn1r⟩ := abs_le.mp hn1
  obtain ⟨hn2l, hn2r⟩ := abs_le.mp hn2
  apply jittered_diff_bound _ _ _ _ (|E - S| / 2 + 50) (|E - S| / 2 + 150)
    ti (1 / σ) j1 j2 35
  · rw [abs_le]
    constructor <;> nlinarith [hE1, hE2]
  · rw [abs_le]
    constructor <;> nlinarith [hE1, hE2]
  · rw [abs_le]
    constructor <;> nlinarith [hE1, hE2]
  · rw [abs_le]
    constructor <;> nlinarith [hE1, hE2]
  · exact hti
  · exact hh
  · exact hth
  · exact hj1
  · exact hj2
  · exact step_arith_bound σ (|E - S|) d hσ9 hD0 hDd hD1000 hcase

end StepBoundHelpers

section StepClaim

/-- Claim C7 (amended): for every pair of endpoints with coordinates in
`[0, 1000]` (the domain exercised by the repository's property test) and
every draw of the randomness source in `[0, 1)`, no two consecutive
points of the generated path are more than 50 units apart. -/
theorem generateBezierPath_no_big_steps (r : ℕ → ℝ)
    (hr : ∀ i, 0 ≤ r i ∧ r i < 1) (s e : Point)
    (hs : 0 ≤ s.x ∧ s.x ≤ 1000 ∧ 0 ≤ s.y ∧ s.y ≤ 1000)
    (he : 0 ≤ e.x ∧ e.x ≤ 1000 ∧ 0 ≤ e.y ∧ e.y ≤ 1000) :
    noBigSteps (generateBezierPath r s e) 50 := by
  obtain ⟨hsx0, hsx1, hsy0, hsy1⟩ := hs
  obtain ⟨hex0, hex1, hey0, hey1⟩ := he
  obtain ⟨hk10, hk100, hkd⟩ := bezierSteps_bounds s e
  intro i hi
  have hlen : (generateBezierPath r s e).length = (bezierSteps s e).toNat := by
    simp [generateBezierPath]
  rw [hlen] at hi
  have hi1 : i < (bezierSteps s e).toNat := by omega
  rw [generateBezierPath_getD r s e i hi1, generateBezierPath_getD r s e (i + 1) hi]
  set k : ℤ := bezierSteps s e with hkdef
  set σ : ℝ := (k : ℝ) - 1 with hσdef
  have hσ9 : 9 ≤ σ := by
    have hc : (10 : ℝ) ≤ (k : ℝ) := by exact_mod_cast hk10
    rw [hσdef]
    linarith
  have hσpos : (0 : ℝ) < σ := by linarith
  have hcase : σ = 99 ∨ euclidDist s e < 5 * (σ + 1) + 5 := by
    rcases hkd with hcl | hcl
    · left
      rw [hσdef, hcl]
      norm_num
    · right
      rw [hσdef]
      push_cast at hcl ⊢
      linarith
  have hik : (i : ℝ) + 1 ≤ σ := by
    have h1 : (i : ℤ) + 2 ≤ k := by omega
    have h2 : (i : ℝ) + 2 ≤ (k : ℝ) := by exact_mod_cast h1
    rw [hσdef]
    linarith
  have hti : (0 : ℝ) ≤ (i : ℝ) / σ := by positivity
  have hth : (i : ℝ) / σ + 1 / σ ≤ 1 := by
    rw [div_add_div_same, div_le_one hσpos]
    linarith
  have harg : ((i + 1 : ℕ) : ℝ) / σ = (i : ℝ) / σ + 1 / σ := by
    push_cast
    rw [add_div]
  have hpx : ∀ j : ℕ, (pathPoint r s e j).x
      = cubicScalar s.x (s.x + (e.x - s.x) * 0.25 + (r 0 - 0.5) * 50)
          (s.x + (e.x - s.x) * 0.75 + (r 2 - 0.5) * 50) e.x ((j : ℝ) / σ)
        + (r (4 + 2 * j) - 0.5) * 2 := by
    intro j
    rw [hσdef, hkdef]
    simp only [pathPoint, cubicBezier, controlPoint1, controlPoint2]
  have hpy : ∀ j : ℕ, (pathPoint r s e j).y
      = cubicScalar s.y (s.y + (e.y - s.y) * 0.25 + (r 1 - 0.5) * 50)
          (s.y + (e.y - s.y) * 0.75 + (r 3 - 0.5) * 50) e.y ((j : ℝ) / σ)
        + (r (5 + 2 * j) - 0.5) * 2 := by
    intro j
    rw [hσdef, hkdef]
    simp only [pathPoint, cubicBezier, controlPoint1, controlPoint2]
  have hnoise : ∀ m : ℕ, |(r m - 0.5) * 50| ≤ 25 := by
    intro m
    have hb := rnoise_bound (r m) 50 (hr m).1 (hr m).2 (by norm_num)
    norm_num at hb
    rw [show (0.5 : ℝ) = 1 / 2 by norm_num]
    exact hb
  have hjit : ∀ m : ℕ, |(r m - 0.5) * 2| ≤ 1 := by
    intro m
    have hb := rnoise_bound (r m) 2 (hr m).1 (hr m).2 (by norm_num)
    norm_num at hb
    rw [show (0.5 : ℝ) = 1 / 2 by norm_num]
    exact hb
  have hD1000x : |e.x - s.x| ≤ 1000 := by
    rw [abs_le]
    constructor <;> linarith
  have hD1000y : |e.y - s.y| ≤ 1000 := by
    rw [abs_le]
    constructor <;> linarith
  have hx := axis_step_bound s.x e.x ((r 0 - 0.5) * 50) ((r 2 - 0.5) * 50)
    ((r (4 + 2 * i) - 0.5) * 2) ((r (4 + 2 * (i + 1)) - 0.5) * 2)
    ((i : ℝ) / σ) σ (euclidDist s e)
    (hnoise 0) (hnoise 2) (hjit (4 + 2 * i)) (hjit (4 + 2 * (i + 1)))
    (abs_dx_le_euclidDist s e) hD1000x hσ9 hcase hti hth
  have hy := axis_step_bound s.y e.y ((r 1 - 0.5) * 50) ((r 3 - 0.5) * 50)
    ((r (5 + 2 * i) - 0.5) * 2) ((r (5 + 2 * (i + 1)) - 0.5) * 2)
    ((i : ℝ) / σ) σ (euclidDist s e)
    (hnoise 1) (hnoise 3) (hjit (5 + 2 * i)) (hjit (5 + 2 * (i + 1)))
    (abs_dy_le_euclidDist s e) hD1000y hσ9 hcase hti hth
  have hxs : |(pathPoint r s e (i + 1)).x - (pathPoint r s e i).x| ≤ 35 := by
    rw [hpx (i + 1), hpx i, harg]
    exact hx
  have hys : |(pathPoint r s e (i + 1)).y - (pathPoint r s e i).y| ≤ 35 := by
    rw [hpy (i + 1), hpy i, harg]
    exact hy
  apply euclidDist_le _ _ 50 (by norm_num)
  obtain ⟨hx1, hx2⟩ := abs_le.mp hxs
  obtain ⟨hy1, hy2⟩ := abs_le.mp hys
  nlinarith [hx1, hx2, hy1, hy2]

/-- Witness for C7 (amended) at the degenerate move from `(0,0)` to
`(0,0)` with the constant draw `1/2`. -/
theorem generateBezierPath_no_big_steps_witness :
    noBigSteps (generateBezierPath (fun _ => 1 / 2) ⟨0, 0⟩ ⟨0, 0⟩) 50 :=
  generateBezierPath_no_big_steps (fun _ => 1 / 2)
    (fun _ => by norm_num) ⟨0, 0⟩ ⟨0, 0⟩
    (by norm_num) (by norm_num)

end StepClaim

section PathLengthHelpers

/-- Equation lemma: empty path has length 0. -/
theorem pathLength_nil : pathLength [] = 0 := rfl

/-- Equation lemma: one-point path has length 0. -/
theorem pathLength_single (a : Point) : pathLength [a] = 0 := rfl

/-- Equation lemma: the length of a path is the first step plus the rest. -/
theorem pathLength_cons_cons (a b : Point) (rest : List Point) :
    pathLength (a :: b :: rest) = euclidDist a b + pathLength (b :: rest) := rfl

/-- Distance from a point to itself is zero. -/
theorem euclidDist_self (b : Point) : euclidDist b b = 0 := by
  rw [euclidDist]
  simp

/-- The jitter added to each sampled point has magnitude at most 1 per
axis when the draws come from `[0, 1)`. -/
theorem jitter_abs_le (r : ℕ → ℝ) (hr : ∀ i, 0 ≤ r i ∧ r i < 1) (m : ℕ) :
    |(r m - 0.5) * 2| ≤ 1 := by
  have hb := rnoise_bound (r m) 2 (hr m).1 (hr m).2 (by norm_num)
  norm_num at hb
  rw [show (0.5 : ℝ) = 1 / 2 by norm_num]
  exact hb

/-- The cumulative length of a path dominates the distance from its
first point to its last point (iterated triangle inequality). -/
theorem pathLength_ge_last : ∀ (rest : List Point) (b : Point),
    euclidDist b (((b :: rest).getLast?).getD ⟨0, 0⟩) ≤ pathLength (b :: rest) := by
  intro rest
  induction rest with
  | nil =>
    intro b
    simp [List.getLast?_singleton, pathLength_single, euclidDist_self]
  | cons c rest ih =>
    intro b
    rw [List.getLast?_cons_cons, pathLength_cons_cons]
    calc euclidDist b (((c :: rest).getLast?).getD ⟨0, 0⟩)
        ≤ euclidDist b c + euclidDist c (((c :: rest).getLast?).getD ⟨0, 0⟩) :=
          euclidDist_triangle _ _ _
      _ ≤ euclidDist b c + pathLength (c :: rest) := by linarith [ih c]

/-- The cumulative length of a non-empty path dominates the distance
between its two endpoints. -/
theorem pathLength_ge_ends (l : List Point) (hne : l ≠ []) :
    euclidDist (l.getD 0 ⟨0, 0⟩) ((l.getLast?).getD ⟨0, 0⟩) ≤ pathLength l := by
  cases l with
  | nil => exact absurd rfl hne
  | cons b rest =>
    have := pathLength_ge_last rest b
    simpa using this

end PathLengthHelpers

section PathLengthClaim

/-- Claim C8 (amended): for every pair of endpoints and every draw of
the randomness source in `[0, 1)`, the cumulative length of the
generated path is at least the straight-line distance between start and
end minus `2√2` (each endpoint of the path may be jittered up to `√2`
away from the requested endpoint; with zero noise the path is exactly
straight, so no strict excess over the straight-line distance can be
guaranteed). -/
theorem pathLength_ge_straight (r : ℕ → ℝ) (hr : ∀ i, 0 ≤ r i ∧ r i < 1)
    (s e : Point) :
    euclidDist s e - 2 * Real.sqrt 2 ≤ pathLength (generateBezierPath r s e) := by
  obtain ⟨hk10, hk100, -⟩ := bezierSteps_bounds s e
  have hn10 : 10 ≤ (bezierSteps s e).toNat := by omega
  have hlen : (generateBezierPath r s e).length = (bezierSteps s e).toNat := by
    simp [generateBezierPath]
  have hne : generateBezierPath r s e ≠ [] := by
    intro hemp
    rw [hemp] at hlen
    simp at hlen
    omega
  have hhead : (generateBezierPath r s e).getD 0 ⟨0, 0⟩ = pathPoint r s e 0 :=
    generateBezierPath_getD r s e 0 (by omega)
  have hget : (generateBezierPath r s e).get? ((bezierSteps s e).toNat - 1)
      = some (pathPoint r s e ((bezierSteps s e).toNat - 1)) := by
    rw [generateBezierPath, List.get?_map,
      List.get?_range (by omega : (bezierSteps s e).toNat - 1 < (bezierSteps s e).toNat)]
    rfl
  have hlast : ((generateBezierPath r s e).getLast?).getD ⟨0, 0⟩
      = pathPoint r s e ((bezierSteps s e).toNat - 1) := by
    rw [List.getLast?_eq_get?, hlen, hget]
    rfl
  have hp0 : pathPoint r s e 0 = ⟨s.x + (r 4 - 0.5) * 2, s.y + (r 5 - 0.5) * 2⟩ := by
    simp [pathPoint, cubicBezier, cubicScalar_zero]
  have hplast : pathPoint r s e ((bezierSteps s e).toNat - 1)
      = ⟨e.x + (r (4 + 2 * ((bezierSteps s e).toNat - 1)) - 0.5) * 2,
          e.y + (r (5 + 2 * ((bezierSteps s e).toNat - 1)) - 0.5) * 2⟩ := by
    have ht1 : (((bezierSteps s e).toNat - 1 : ℕ) : ℝ)
        / ((bezierSteps s e : ℝ) - 1) = 1 := by
      have hc : (((bezierSteps s e).toNat - 1 : ℕ) : ℝ)
          = (bezierSteps s e : ℝ) - 1 := by
        have hz : (((bezierSteps s e).toNat - 1 : ℕ) : ℤ) = bezierSteps s e - 1 := by
          omega
        exact_mod_cast hz
      rw [hc]
      apply div_self
      have hc10 : (10 : ℝ) ≤ (bezierSteps s e : ℝ) := by exact_mod_cast hk10
      linarith
    simp [pathPoint, cubicBezier, ht1, cubicScalar_one]
  have hd1 : euclidDist s (pathPoint r s e 0) ≤ Real.sqrt 2 := by
    rw [hp0]
    apply euclidDist_le_sqrt_two
    · show |(s.x + (r 4 - 0.5) * 2) - s.x| ≤ 1
      rw [show (s.x + (r 4 - 0.5) * 2) - s.x = (r 4 - 0.5) * 2 by ring]
      exact jitter_abs_le r hr 4
    · show |(s.y + (r 5 - 0.5) * 2) - s.y| ≤ 1
      rw [show (s.y + (r 5 - 0.5) * 2) - s.y = (r 5 - 0.5) * 2 by ring]
      exact jitter_abs_le r hr 5
  have hd2 : euclidDist (pathPoint r s e ((bezierSteps s e).toNat - 1)) e
      ≤ Real.sqrt 2 := by
    rw [hplast]
    apply euclidDist_le_sqrt_two
    · show |e.x - (e.x + (r (4 + 2 * ((bezierSteps s e).toNat - 1)) - 0.5) * 2)| ≤ 1
      rw [show e.x - (e.x + (r (4 + 2 * ((bezierSteps s e).toNat - 1)) - 0.5) * 2)
          = -((r (4 + 2 * ((bezierSteps s e).toNat - 1)) - 0.5) * 2) by ring, abs_neg]
      exact jitter_abs_le r hr _
    · show |e.y - (e.y + (r (5 + 2 * ((bezierSteps s e).toNat - 1)) - 0.5) * 2)| ≤ 1
      rw [show e.y - (e.y + (r (5 + 2 * ((bezierSteps s e).toNat - 1)) - 0.5) * 2)
          = -((r (5 + 2 * ((bezierSteps s e).toNat - 1)) - 0.5) * 2) by ring, abs_neg]
      exact jitter_abs_le r hr _
  have hmid : euclidDist (pathPoint r s e 0)
      (pathPoint r s e ((bezierSteps s e).toNat - 1))
      ≤ pathLength (generateBezierPath r s e) := by
    have hends := pathLength_ge_ends (generateBezierPath r s e) hne
    rw [hhead, hlast] at hends
    exact hends
  have htri1 := euclidDist_triangle s (pathPoint r s e 0) e
  have htri2 := euclidDist_triangle (pathPoint r s e 0)
    (pathPoint r s e ((bezierSteps s e).toNat - 1)) e
  linarith

/-- Witness for C8 (amended) at the degenerate move from `(0,0)` to
`(0,0)` with the constant draw `1/2`. -/
theorem pathLength_ge_straight_witness :
    euclidDist ⟨0, 0⟩ ⟨0, 0⟩ - 2 * Real.sqrt 2
      ≤ pathLength (generateBezierPath (fun _ => 1 / 2) ⟨0, 0⟩ ⟨0, 0⟩) :=
  pathLength_ge_straight (fun _ => 1 / 2) (fun _ => by norm_num) ⟨0, 0⟩ ⟨0, 0⟩

end PathLengthClaim

section GeometryCounterexamples

/-- Distance along a horizontal segment. -/
theorem euclidDist_horiz (a b : ℝ) (h : a ≤ b) :
    euclidDist ⟨a, 0⟩ ⟨b, 0⟩ = b - a := by
  rw [euclidDist]
  show Real.sqrt ((b - a) ^ 2 + ((0 : ℝ) - 0) ^ 2) = b - a
  rw [show (b - a) ^ 2 + ((0 : ℝ) - 0) ^ 2 = (b - a) ^ 2 by ring]
  exact Real.sqrt_sq (by linarith)

/-- Claim C7, counterexample: for the move from `(0,0)` to `(100000,0)`
with the constant draw `1/2` (all noise and jitter zero), the step count
is clamped to 100, so the very first step of the path is about 765
units — far beyond 50. The claim's universal quantification over all
`(start, end)` pairs fails. -/
theorem generateBezierPath_big_step :
    ¬ noBigSteps (generateBezierPath (fun _ => 1 / 2) ⟨0, 0⟩ ⟨100000, 0⟩) 50 := by
  have hd : euclidDist ⟨0, 0⟩ ⟨100000, 0⟩ = 100000 := by
    rw [euclidDist_horiz 0 100000 (by norm_num)]
    norm_num
  have hfl : ⌊euclidDist (⟨0, 0⟩ : Point) ⟨100000, 0⟩ / 5⌋ = 20000 := by
    rw [hd]
    rw [show (100000 : ℝ) / 5 = ((20000 : ℤ) : ℝ) by norm_num]
    exact Int.floor_intCast 20000
  have hk : bezierSteps ⟨0, 0⟩ ⟨100000, 0⟩ = 100 := by
    simp only [bezierSteps, hfl]
    norm_num
  have hlen : (generateBezierPath (fun _ => 1 / 2) ⟨0, 0⟩ ⟨100000, 0⟩).length
      = 100 := by
    simp [generateBezierPath, hk]
  intro hno
  have hstep := hno 0 (by rw [hlen]; norm_num)
  rw [generateBezierPath_getD _ _ _ 0 (by rw [hk]; norm_num)] at hstep
  rw [show (0 : ℕ) + 1 = 1 from rfl] at hstep
  rw [generateBezierPath_getD _ _ _ 1 (by rw [hk]; norm_num)] at hstep
  have hp0 : pathPoint (fun _ => 1 / 2) ⟨0, 0⟩ ⟨100000, 0⟩ 0 = ⟨0, 0⟩ := by
    norm_num [pathPoint, cubicBezier, controlPoint1, controlPoint2,
      cubicScalar, hk]
  have hp1 : pathPoint (fun _ => 1 / 2) ⟨0, 0⟩ ⟨100000, 0⟩ 1
      = ⟨742450000 / 970299, 0⟩ := by
    norm_num [pathPoint, cubicBezier, controlPoint1, controlPoint2,
      cubicScalar, hk]
  rw [hp0, hp1, euclidDist_horiz 0 (742450000 / 970299) (by norm_num)] at hstep
  norm_num at hstep

/-- Claim C8, counterexample: for the move from `(0,0)` to `(12,0)`
(straight-line distance 12 > 10) with the constant draw `1/2`, all noise
and jitter vanish, the Bézier degenerates to a monotone straight
segment, and the cumulative path length equals the straight-line
distance exactly — it does not strictly exceed it. -/
theorem generateBezierPath_straight_no_excess :
    10 < euclidDist ⟨0, 0⟩ ⟨12, 0⟩
    ∧ ¬ (euclidDist ⟨0, 0⟩ ⟨12, 0⟩
        < pathLength (generateBezierPath (fun _ => 1 / 2) ⟨0, 0⟩ ⟨12, 0⟩)) := by
  have hd : euclidDist ⟨0, 0⟩ ⟨12, 0⟩ = 12 := by
    rw [euclidDist_horiz 0 12 (by norm_num)]
    norm_num
  have hfl : ⌊euclidDist (⟨0, 0⟩ : Point) ⟨12, 0⟩ / 5⌋ = 2 := by
    rw [hd]
    rw [Int.floor_eq_iff]
    norm_num
  have hk : bezierSteps ⟨0, 0⟩ ⟨12, 0⟩ = 10 := by
    simp only [bezierSteps, hfl]
    norm_num
  have h0 : pathPoint (fun _ => 1 / 2) ⟨0, 0⟩ ⟨12, 0⟩ 0 = ⟨0, 0⟩ := by
    norm_num [pathPoint, cubicBezier, controlPoint1, controlPoint2,
      cubicScalar, hk]
  have h1 : pathPoint (fun _ => 1 / 2) ⟨0, 0⟩ ⟨12, 0⟩ 1 = ⟨268 / 243, 0⟩ := by
    norm_num [pathPoint, cubicBezier, controlPoint1, controlPoint2,
      cubicScalar, hk]
  have h2 : pathPoint (fun _ => 1 / 2) ⟨0, 0⟩ ⟨12, 0⟩ 2 = ⟨578 / 243, 0⟩ := by
    norm_num [pathPoint, cubicBezier, controlPoint1, controlPoint2,
      cubicScalar, hk]
  have h3 : pathPoint (fun _ => 1 / 2) ⟨0, 0⟩ ⟨12, 0⟩ 3 = ⟨918 / 243, 0⟩ := by
    norm_num [pathPoint, cubicBezier, controlPoint1, controlPoint2,
      cubicScalar, hk]
  have h4 : pathPoint (fun _ => 1 / 2) ⟨0, 0⟩ ⟨12, 0⟩ 4 = ⟨1276 / 243, 0⟩ := by
    norm_num [pathPoint, cubicBezier, controlPoint1, controlPoint2,
      cubicScalar, hk]
  have h5 : pathPoint (fun _ => 1 / 2) ⟨0, 0⟩ ⟨12, 0⟩ 5 = ⟨1640 / 243, 0⟩ := by
    norm_num [pathPoint, cubicBezier, controlPoint1, controlPoint2,
      cubicScalar, hk]
  have h6 : pathPoint (fun _ => 1 / 2) ⟨0, 0⟩ ⟨12, 0⟩ 6 = ⟨1998 / 243, 0⟩ := by
    norm_num [pathPoint, cubicBezier, controlPoint1, controlPoint2,
      cubicScalar, hk]
  have h7 : pathPoint (fun _ => 1 / 2) ⟨0, 0⟩ ⟨12, 0⟩ 7 = ⟨2338 / 243, 0⟩ := by
    norm_num [pathPoint, cubicBezier, controlPoint1, controlPoint2,
      cubicScalar, hk]
  have h8 : pathPoint (fun _ => 1 / 2) ⟨0, 0⟩ ⟨12, 0⟩ 8 = ⟨2648 / 243, 0⟩ := by
    norm_num [pathPoint, cubicBezier, controlPoint1, controlPoint2,
      cubicScalar, hk]
  have h9 : pathPoint (fun _ => 1 / 2) ⟨0, 0⟩ ⟨12, 0⟩ 9 = ⟨12, 0⟩ := by
    norm_num [pathPoint, cubicBezier, controlPoint1, controlPoint2,
      cubicScalar, hk]
  have hlist : generateBezierPath (fun _ => 1 / 2) ⟨0, 0⟩ ⟨12, 0⟩
      = [⟨0, 0⟩, ⟨268 / 243, 0⟩, ⟨578 / 243, 0⟩, ⟨918 / 243, 0⟩,
          ⟨1276 / 243, 0⟩, ⟨1640 / 243, 0⟩, ⟨1998 / 243, 0⟩, ⟨2338 / 243, 0⟩,
          ⟨2648 / 243, 0⟩, ⟨12, 0⟩] := by
    rw [generateBezierPath, hk]
    rw [show ((10 : ℤ)).toNat = 10 from rfl]
    simp only [List.range_succ, List.range_zero, List.nil_append,
      List.cons_append, List.map_cons, List.map_nil, h0, h1, h2, h3, h4, h5,
      h6, h7, h8, h9]
  have hpl : pathLength (generateBezierPath (fun _ => 1 / 2) ⟨0, 0⟩ ⟨12, 0⟩)
      = 12 := by
    rw [hlist]
    simp only [pathLength_cons_cons, pathLength_single]
    rw [euclidDist_horiz 0 (268 / 243) (by norm_num),
      euclidDist_horiz (268 / 243) (578 / 243) (by norm_num),
      euclidDist_horiz (578 / 243) (918 / 243) (by norm_num),
      euclidDist_horiz (918 / 243) (1276 / 243) (by norm_num),
      euclidDist_horiz (1276 / 243) (1640 / 243) (by norm_num),
      euclidDist_horiz (1640 / 243) (1998 / 243) (by norm_num),
      euclidDist_horiz (1998 / 243) (2338 / 243) (by norm_num),
      euclidDist_horiz (2338 / 243) (2648 / 243) (by norm_num),
      euclidDist_horiz (2648 / 243) 12 (by norm_num)]
    norm_num
  constructor
  · rw [hd]
    norm_num
  · rw [hd, hpl]
    norm_num

end GeometryCounterexamples
